import Mathlib

/-!
# Verification of the audio-reactive visualizer core

Shallow embedding of the numeric core of the visualizer repository:
the perceptual parameter mapping, the seed codec, the audio effects
chain parameter curves, the energy-layer model of the render shader,
and the audio analyzers (both variants present in the sources).

Numbers that the source manipulates as IEEE doubles are modelled as
exact rationals where the code is closed under rational arithmetic,
and as real numbers where the code takes square roots (the RMS band
energies and the beat-detection standard deviation).
-/

namespace PerceptualMapping

/-- From src/lib/perceptual-mapping.ts: smoothstep S-curve.  The code
clamps the normalized argument to [0,1] and returns t*t*(3-2t). -/
def smoothstep (edge0 edge1 x : ℚ) : ℚ :=
  let t := max 0 (min 1 ((x - edge0) / (edge1 - edge0)))
  t * t * (3 - 2 * t)

/-- From src/lib/perceptual-mapping.ts: ease-in-out cubic,
x < 0.5 then 4x^3 else 1 - (-2x+2)^3/2. -/
def easeInOutCubic (x : ℚ) : ℚ :=
  if x < 1/2 then 4 * x * x * x else 1 - (-2 * x + 2) ^ 3 / 2

/-- Subtle-zone branch of mapToPerceptualZone (linear <= 0.4). -/
def subtleZone (linear : ℚ) : ℚ :=
  easeInOutCubic (linear / 0.4) * 0.2

/-- Expressive-zone branch of mapToPerceptualZone (0.4 < linear <= 0.8). -/
def expressiveZone (linear : ℚ) : ℚ :=
  0.2 + smoothstep 0 1 ((linear - 0.4) / 0.4) * 0.5

/-- Experimental-zone branch of mapToPerceptualZone (0.8 < linear). -/
def experimentalZone (linear : ℚ) : ℚ :=
  0.7 + easeInOutCubic ((linear - 0.8) / 0.2) * 0.3

/-- From src/lib/perceptual-mapping.ts: three-segment perceptual zone map. -/
def mapToPerceptualZone (linear : ℚ) : ℚ :=
  if linear ≤ 0.4 then subtleZone linear
  else if linear ≤ 0.8 then expressiveZone linear
  else experimentalZone linear

/-- From src/lib/perceptual-mapping.ts: soft-knee audio reactivity map.
scaled = audioLevel*(0.3+intensity*0.7); below the 0.3 knee the output
is scaled*0.5, above it threshold*0.5 + overshoot*0.8. -/
def mapAudioReactivity (audioLevel intensity : ℚ) : ℚ :=
  let scaled := audioLevel * (0.3 + intensity * 0.7)
  let threshold : ℚ := 0.3
  if scaled ≤ threshold then scaled * 0.5
  else threshold * 0.5 + (scaled - threshold) * 0.8

end PerceptualMapping

namespace EffectsChain

/-- From src/visualizers/audio-effects-chain.ts, update(), both variants:
feedback = Math.min(0.6, echo * 0.6). -/
def feedback (echo : ℚ) : ℚ :=
  min 0.6 (echo * 0.6)

/-- From src/visualizers/audio-effects-chain.ts, first variant update():
base filter cutoff with a 2000 Hz floor. -/
def baseFreq1 (drift : ℚ) : ℚ :=
  if drift < 0.3 then 18000 - drift / 0.3 * 8000
  else if drift < 0.7 then 10000 - (drift - 0.3) / 0.4 * 6000
  else max 2000 (4000 - (drift - 0.7) / 0.3 * 2000)

/-- From src/visualizers/audio-effects-chain.ts, second variant update():
base filter cutoff with a 2500 Hz floor. -/
def baseFreq2 (drift : ℚ) : ℚ :=
  if drift < 0.3 then 18000 - drift / 0.3 * 6000
  else if drift < 0.7 then 12000 - (drift - 0.3) / 0.4 * 6000
  else max 2500 (6000 - (drift - 0.7) / 0.3 * 3500)

end EffectsChain

namespace SeedCodec

/-- Visual slider state (src/visualizers/types, used by the seed codec). -/
structure VisualizerParams where
  dose : ℚ
  symmetry : ℚ
  recursion : ℚ
  breathing : ℚ
  flow : ℚ
  saturation : ℚ

/-- Audio slider state (src/visualizers/audio-effects-chain.ts). -/
structure AudioEffectParams where
  echo : ℚ
  drift : ℚ
  break_ : ℚ

/-- JS Math.round: floor(x + 0.5), rounding halves toward positive infinity. -/
def jsRound (q : ℚ) : ℤ := ⌊q + 1/2⌋

/-- The nine Math.round(value * 255) pushes of encodeSeed, in source order. -/
def encodeBytes (p : VisualizerParams) (a : AudioEffectParams) : List ℤ :=
  [jsRound (p.dose * 255), jsRound (p.symmetry * 255), jsRound (p.recursion * 255),
   jsRound (p.breathing * 255), jsRound (p.flow * 255), jsRound (p.saturation * 255),
   jsRound (a.echo * 255), jsRound (a.drift * 255), jsRound (a.break_ * 255)]

/-- Math.min(255, Math.max(0, b)) applied during hex rendering. -/
def clampByte (z : ℤ) : ℕ := (min 255 (max 0 z)).toNat

/-- Uppercase hex digit: toString(16) composed with toUpperCase, one digit. -/
def hexDigitU (n : ℕ) : Char :=
  if n < 10 then Char.ofNat (48 + n) else Char.ofNat (55 + n)

/-- Two-digit uppercase hex rendering of a byte (padStart(2, zero)). -/
def byteToHexPair (b : ℕ) : List Char :=
  [hexDigitU (b / 16), hexDigitU (b % 16)]

/-- encodeSeed: the SR- prefix followed by 18 uppercase hex characters. -/
def encodeSeed (p : VisualizerParams) (a : AudioEffectParams) : List Char :=
  'S' :: 'R' :: '-' :: (encodeBytes p a).flatMap (fun z => byteToHexPair (clampByte z))

/-- Whitespace stripped by trim, modelled over the ASCII range. -/
def isWS (c : Char) : Bool :=
  c = ' ' || c = '\t' || c = '\n' || c = '\r'

/-- String.prototype.trim modelled on char lists. -/
def jsTrim (l : List Char) : List Char :=
  ((l.dropWhile isWS).reverse.dropWhile isWS).reverse

/-- String.prototype.toUpperCase modelled per char (ASCII). -/
def jsUpper (l : List Char) : List Char := l.map Char.toUpper

/-- Shared preprocessing of decodeSeed and isValidSeed: trim, uppercase,
then strip a leading SR- when present. -/
def canonSeed (l : List Char) : List Char :=
  let s := jsUpper (jsTrim l)
  if s.take 3 = ['S', 'R', '-'] then s.drop 3 else s

/-- One-char test of the regular expression class [0-9A-F]. -/
def isHexUpper (c : Char) : Bool :=
  ('0' ≤ c && c ≤ '9') || ('A' ≤ c && c ≤ 'F')

/-- Test of the anchored pattern of exactly 18 chars from [0-9A-F]. -/
def isHex18 (l : List Char) : Bool :=
  l.length == 18 && l.all isHexUpper

/-- parseInt(digit, 16) for characters matched by the hex pattern. -/
def hexVal (c : Char) : ℕ :=
  if c ≤ '9' then c.toNat - 48 else c.toNat - 55

/-- The decode loop: bytes.push(parseInt(s.slice(i, i+2), 16)). -/
def pairBytes : List Char → List ℕ
  | c1 :: c2 :: rest => (hexVal c1 * 16 + hexVal c2) :: pairBytes rest
  | _ => []

/-- decodeSeed from the seed codec (unnamed part_003): empty input and
anything failing the 18-hex-char pattern after preprocessing give null;
otherwise the nine parsed bytes are divided by 255. -/
def decodeSeed (l : List Char) : Option (VisualizerParams × AudioEffectParams) :=
  if l = [] then none
  else if isHex18 (canonSeed l) then
    some (⟨((pairBytes (canonSeed l)).getD 0 0 : ℚ) / 255,
           ((pairBytes (canonSeed l)).getD 1 0 : ℚ) / 255,
           ((pairBytes (canonSeed l)).getD 2 0 : ℚ) / 255,
           ((pairBytes (canonSeed l)).getD 3 0 : ℚ) / 255,
           ((pairBytes (canonSeed l)).getD 4 0 : ℚ) / 255,
           ((pairBytes (canonSeed l)).getD 5 0 : ℚ) / 255⟩,
          ⟨((pairBytes (canonSeed l)).getD 6 0 : ℚ) / 255,
           ((pairBytes (canonSeed l)).getD 7 0 : ℚ) / 255,
           ((pairBytes (canonSeed l)).getD 8 0 : ℚ) / 255⟩)
  else none

/-- isValidSeed from the seed codec (unnamed part_003). -/
def isValidSeed (l : List Char) : Bool :=
  if l = [] then false else isHex18 (canonSeed l)

end SeedCodec

/-- The for-loop summation pattern of the analyzers:
for (i = start; i < start + count; i++) acc += f i. -/
def loopSum {α : Type} [AddCommMonoid α] (f : ℕ → α) : ℕ → ℕ → α
  | _, 0 => 0
  | start, n + 1 => f start + loopSum f (start + 1) n

namespace AnalyzerV1

/-- getAverageInRange of the first analyzer variant: arithmetic mean of
the byte magnitudes over [start, min finish length), then divided by 255. -/
def getAverageInRange (data : List ℕ) (start finish : ℕ) : ℚ :=
  loopSum (fun i => (data.getD i 0 : ℚ)) start (min finish data.length - start)
    / ((min finish data.length - start : ℕ) : ℚ) / 255

/-- smooth of the first analyzer variant. -/
def smooth (current target factor : ℚ) : ℚ :=
  current + (target - current) * factor

/-- Beat-relevant state of the first analyzer variant. -/
structure V1State where
  smoothedBass : ℚ
  energyHistory : List ℚ
  lastBeatTime : ℚ

/-- One analyzer input: the byte spectrum and the performance.now clock. -/
structure Frame where
  spectrum : List ℕ
  now : ℚ

/-- One analyze() call of the first analyzer variant, restricted to the
state feeding beat detection.  Constants from the source: bass bins 1-7,
attack 0.5 and release 0.08, history window 43, threshold 0.6 with the
1.5x rolling mean, cooldown 100 ms.  Returns the new state and the
beatDetected flag of the frame. -/
def analyzeStep (s : V1State) (f : Frame) : V1State × Bool :=
  let rawBass := getAverageInRange f.spectrum 1 7
  let bass := smooth s.smoothedBass rawBass
    (if rawBass > s.smoothedBass then 0.5 else 0.08)
  let hist0 := s.energyHistory ++ [bass]
  let hist := if hist0.length > 43 then hist0.tail else hist0
  let avgEnergy := hist.sum / (hist.length : ℚ)
  let beat := decide (bass > avgEnergy * 1.5 ∧ bass > 0.6 ∧ f.now - s.lastBeatTime > 100)
  (⟨bass, hist, if beat then f.now else s.lastBeatTime⟩, beat)

/-- Constructor state of the first analyzer variant. -/
def initState : V1State := ⟨0, [], 0⟩

/-- The state before the n-th analyze() call of a run. -/
def runStates (fs : ℕ → Frame) : ℕ → V1State
  | 0 => initState
  | n + 1 => (analyzeStep (runStates fs n) (fs n)).1

/-- beatDetected reported by the n-th analyze() call of a run. -/
def beatAt (fs : ℕ → Frame) (n : ℕ) : Bool :=
  (analyzeStep (runStates fs n) (fs n)).2

/-- A concrete run: one silent frame, then a sustained full-scale bass
spike, with 110 ms between consecutive frames. -/
def cexFrames : ℕ → Frame := fun n =>
  if n = 0 then ⟨List.replicate 7 0, 0⟩
  else if n = 1 then ⟨List.replicate 7 255, 110⟩
  else if n = 2 then ⟨List.replicate 7 255, 220⟩
  else ⟨List.replicate 7 255, 330⟩

end AnalyzerV1

namespace AnalyzerV2

/-- getBandEnergy of the second analyzer variant: root of the mean of
the squared normalized magnitudes over [startBin, min endBin length). -/
noncomputable def getBandEnergy (data : List ℕ) (startBin endBin : ℕ) : ℝ :=
  Real.sqrt (loopSum
    (fun i => ((data.getD i 0 : ℝ) / 255) * ((data.getD i 0 : ℝ) / 255))
    startBin (min endBin data.length - startBin)
    / ((min endBin data.length - startBin : ℕ) : ℝ))

/-- asymmetricSmooth of the second analyzer variant: fast attack on a
rising target, slow release otherwise. -/
noncomputable def asymmetricSmooth (current target attackRate releaseRate : ℝ) : ℝ :=
  current + (target - current) *
    (if target > current then attackRate else releaseRate)

/-- Beat-relevant state of the second analyzer variant. -/
structure V2State where
  bass : ℝ
  prevSpectrum : List ℝ
  energyHistory : List ℝ
  lastBeatTime : ℝ

/-- One analyzer input: the byte spectrum and the performance.now clock. -/
structure Frame where
  spectrum : List ℕ
  now : ℝ

/-- combinedBass of analyze(): sub-bass RMS (bins 1-3) weighted 0.6 plus
bass RMS (bins 3-8) weighted 0.4. -/
noncomputable def combinedBass (f : Frame) : ℝ :=
  getBandEnergy f.spectrum 1 3 * 0.6 + getBandEnergy f.spectrum 3 8 * 0.4

/-- Spectral flux of the frame: positive-only deltas of the normalized
spectrum against the previous frame, averaged over the bins, times 10. -/
noncomputable def stepFlux (s : V2State) (f : Frame) : ℝ :=
  loopSum
    (fun i =>
      if (f.spectrum.getD i 0 : ℝ) / 255 - s.prevSpectrum.getD i 0 > 0
      then (f.spectrum.getD i 0 : ℝ) / 255 - s.prevSpectrum.getD i 0 else 0)
    0 f.spectrum.length / (f.spectrum.length : ℝ) * 10

/-- The smoothed bass after the frame: attack 0.6, release 0.05. -/
noncomputable def stepBass (s : V2State) (f : Frame) : ℝ :=
  asymmetricSmooth s.bass (combinedBass f) 0.6 0.05

/-- The bass history after the frame: push, then drop the oldest entry
once the 43-entry window overflows. -/
noncomputable def stepHistory (s : V2State) (f : Frame) : List ℝ :=
  let hist0 := s.energyHistory ++ [stepBass s f]
  if hist0.length > 43 then hist0.tail else hist0

/-- The adaptive threshold of the frame: rolling mean plus 1.5 standard
deviations of the bass history window. -/
noncomputable def stepThreshold (s : V2State) (f : Frame) : ℝ :=
  let hist := stepHistory s f
  let avgEnergy := hist.sum / (hist.length : ℝ)
  let variance := (hist.map (fun e => (e - avgEnergy) ^ 2)).sum / (hist.length : ℝ)
  avgEnergy + Real.sqrt variance * 1.5

/-- beatDetected of the frame: the four-way conjunction of the source
(bass above the adaptive threshold, bass rising by more than 1.2x,
spectral flux above 0.1, more than 120 ms since the last beat). -/
noncomputable def beatDetected (s : V2State) (f : Frame) : Prop :=
  stepBass s f > stepThreshold s f ∧
  stepBass s f > s.bass * 1.2 ∧
  stepFlux s f > 0.1 ∧
  f.now - s.lastBeatTime > 120

open Classical in
/-- One analyze() call of the second analyzer variant, restricted to the
state feeding beat detection. -/
noncomputable def analyzeStep (s : V2State) (f : Frame) : V2State :=
  ⟨stepBass s f,
   f.spectrum.map (fun v => (v : ℝ) / 255),
   stepHistory s f,
   if beatDetected s f then f.now else s.lastBeatTime⟩

/-- The state before the n-th analyze() call of a run from state s0. -/
noncomputable def runStates (s0 : V2State) (fs : ℕ → Frame) : ℕ → V2State
  | 0 => s0
  | n + 1 => analyzeStep (runStates s0 fs n) (fs n)

/-- beatDetected reported by the n-th analyze() call of a run. -/
noncomputable def beatAt (s0 : V2State) (fs : ℕ → Frame) (n : ℕ) : Prop :=
  beatDetected (runStates s0 fs n) (fs n)

/-- Modelled from the spec: the band energy the spec describes, the
root of the mean of the squared normalized magnitudes over the fixed
bin range of the band. -/
noncomputable def specRMS (data : List ℕ) (startBin endBin : ℕ) : ℝ :=
  Real.sqrt ((∑ i in Finset.Ico startBin (min endBin data.length),
      ((data.getD i 0 : ℝ) / 255) ^ 2)
    / ((min endBin data.length - startBin : ℕ) : ℝ))

/-- A concrete analyzer state: smoothed bass 30/255 after a stretch of
constant low input, four silent frames and four low frames in the
history window, last beat at t = 1000 ms. -/
noncomputable def witState : V2State :=
  ⟨30/255, List.replicate 8 (30/255),
   [0, 0, 0, 0, 30/255, 30/255, 30/255, 30/255], 1000⟩

/-- A concrete frame: the spectrum jumps to the byte value 80 in every
bin at t = 1200 ms. -/
def witFrame : Frame := ⟨List.replicate 8 80, 1200⟩

end AnalyzerV2

namespace EnergyLayer

/-- Energy-layer model of the render shader (unnamed part_007, main):
each effect computes effective = base + energyContribution * (1 - base),
e.g. effectiveDose = baseDose + doseEnergy * (1.0 - baseDose). -/
def effectiveValue (base energy : ℚ) : ℚ :=
  base + energy * (1 - base)

end EnergyLayer

/-- C4: for every base and energy in [0,1], the energy-layer value
effective = base + energy*(1-base) of the render shader satisfies
base <= effective <= 1, equals base at energy 0, equals 1 at energy 1,
and is strictly increasing in energy whenever base < 1. -/
theorem energy_layer_model (base energy : ℚ)
    (hb0 : 0 ≤ base) (hb1 : base ≤ 1) (he0 : 0 ≤ energy) (he1 : energy ≤ 1) :
    base ≤ EnergyLayer.effectiveValue base energy ∧
    EnergyLayer.effectiveValue base energy ≤ 1 ∧
    EnergyLayer.effectiveValue base 0 = base ∧
    EnergyLayer.effectiveValue base 1 = 1 ∧
    (base < 1 → ∀ e1 e2 : ℚ, e1 < e2 →
      EnergyLayer.effectiveValue base e1 < EnergyLayer.effectiveValue base e2) := by
  unfold EnergyLayer.effectiveValue
  refine ⟨by nlinarith, by nlinarith, by ring, by ring, ?_⟩
  intro hlt e1 e2 h12
  nlinarith

/-- Witness for C4 at base = 1/2, energy = 1/4. -/
theorem energy_layer_model_witness :
    (1/2 : ℚ) ≤ EnergyLayer.effectiveValue (1/2) (1/4) ∧
    EnergyLayer.effectiveValue (1/2) (1/4) ≤ 1 ∧
    EnergyLayer.effectiveValue (1/2) 0 = 1/2 ∧
    EnergyLayer.effectiveValue (1/2) 1 = 1 ∧
    ((1:ℚ)/2 < 1 → ∀ e1 e2 : ℚ, e1 < e2 →
      EnergyLayer.effectiveValue (1/2) e1 < EnergyLayer.effectiveValue (1/2) e2) :=
  energy_layer_model (1/2) (1/4) (by norm_num) (by norm_num) (by norm_num) (by norm_num)

/-- C5: for every echo control value in [0,1], the feedback gain
computed by AudioEffectsChain.update (both variants share the formula
min(0.6, echo * 0.6)) is at most 0.6. -/
theorem feedback_clamped (echo : ℚ) (h0 : 0 ≤ echo) (h1 : echo ≤ 1) :
    EffectsChain.feedback echo ≤ 0.6 :=
  min_le_left _ _

/-- Witness for C5 at echo = 1. -/
theorem feedback_clamped_witness : EffectsChain.feedback 1 ≤ 0.6 :=
  feedback_clamped 1 (by norm_num) (by norm_num)

/-- C6: for every drift control value in [0,1], the base filter cutoff
computed by AudioEffectsChain.update never drops below the documented
floor: 2000 Hz in the first variant and 2500 Hz in the second. -/
theorem cutoff_floor (drift : ℚ) (h0 : 0 ≤ drift) (h1 : drift ≤ 1) :
    2000 ≤ EffectsChain.baseFreq1 drift ∧ 2500 ≤ EffectsChain.baseFreq2 drift := by
  constructor
  · unfold EffectsChain.baseFreq1
    split_ifs with hd1 hd2
    · have h : drift / 0.3 * 8000 = drift * (80000/3) := by ring
      rw [h]; linarith
    · have h : (drift - 0.3) / 0.4 * 6000 = drift * 15000 - 4500 := by ring
      rw [h]; linarith
    · exact le_max_left _ _
  · unfold EffectsChain.baseFreq2
    split_ifs with hd1 hd2
    · have h : drift / 0.3 * 6000 = drift * 20000 := by ring
      rw [h]; linarith
    · have h : (drift - 0.3) / 0.4 * 6000 = drift * 15000 - 4500 := by ring
      rw [h]; linarith
    · exact le_max_left _ _

/-- Witness for C6 at drift = 1 (maximum drift). -/
theorem cutoff_floor_witness :
    2000 ≤ EffectsChain.baseFreq1 1 ∧ 2500 ≤ EffectsChain.baseFreq2 1 :=
  cutoff_floor 1 (by norm_num) (by norm_num)

/-- C10: for audioLevel and intensity in [0,1], mapAudioReactivity stays
in [0, 0.71]; the maximum 0.71 = 0.15 + 0.7*0.8 is attained at
audioLevel = intensity = 1, and at the knee (scaled = 0.3, reached for
example at audioLevel 1, intensity 0) the below-knee branch yields 0.15
and the above-knee formula 0.3*0.5 + (0.3-0.3)*0.8 also yields 0.15. -/
theorem mapAudioReactivity_bounds (audioLevel intensity : ℚ)
    (ha0 : 0 ≤ audioLevel) (ha1 : audioLevel ≤ 1)
    (hi0 : 0 ≤ intensity) (hi1 : intensity ≤ 1) :
    0 ≤ PerceptualMapping.mapAudioReactivity audioLevel intensity ∧
    PerceptualMapping.mapAudioReactivity audioLevel intensity ≤ 0.71 ∧
    PerceptualMapping.mapAudioReactivity 1 1 = 0.71 ∧
    PerceptualMapping.mapAudioReactivity 1 0 = 0.15 ∧
    (0.3 : ℚ) * 0.5 + (0.3 - 0.3) * 0.8 = 0.15 := by
  have hknee1 : PerceptualMapping.mapAudioReactivity 1 1 = 0.71 := by
    norm_num [PerceptualMapping.mapAudioReactivity]
  have hknee2 : PerceptualMapping.mapAudioReactivity 1 0 = 0.15 := by
    norm_num [PerceptualMapping.mapAudioReactivity]
  refine ⟨?_, ?_, hknee1, hknee2, by norm_num⟩
  · unfold PerceptualMapping.mapAudioReactivity
    simp only
    split_ifs with h
    · nlinarith
    · nlinarith
  · unfold PerceptualMapping.mapAudioReactivity
    simp only
    split_ifs with h
    · nlinarith
    · nlinarith

/-- Witness for C10 at audioLevel = 1, intensity = 1. -/
theorem mapAudioReactivity_bounds_witness :
    0 ≤ PerceptualMapping.mapAudioReactivity 1 1 ∧
    PerceptualMapping.mapAudioReactivity 1 1 ≤ 0.71 ∧
    PerceptualMapping.mapAudioReactivity 1 1 = 0.71 ∧
    PerceptualMapping.mapAudioReactivity 1 0 = 0.15 ∧
    (0.3 : ℚ) * 0.5 + (0.3 - 0.3) * 0.8 = 0.15 :=
  mapAudioReactivity_bounds 1 1 (by norm_num) (by norm_num) (by norm_num) (by norm_num)

namespace PerceptualMapping

theorem easeInOutCubic_mono {a b : ℚ} (h0 : 0 ≤ a) (hab : a ≤ b) (h1 : b ≤ 1) :
    easeInOutCubic a ≤ easeInOutCubic b := by
  unfold easeInOutCubic
  split_ifs with ha hb hb
  · nlinarith [sq_nonneg (a + b), sq_nonneg (a - b), sq_nonneg a, sq_nonneg b]
  · push_neg at hb
    have hu0 : (0 : ℚ) ≤ -2 * b + 2 := by linarith
    have hu1 : -2 * b + 2 ≤ 1 := by linarith
    have hcube : (-2 * b + 2) ^ 3 ≤ 1 := by nlinarith [sq_nonneg (-2 * b + 2)]
    nlinarith [sq_nonneg a, sq_nonneg (a - 1/2)]
  · exact absurd (lt_of_le_of_lt hab hb) ha
  · push_neg at ha hb
    have hu0 : (0 : ℚ) ≤ -2 * b + 2 := by linarith
    have huv : -2 * b + 2 ≤ -2 * a + 2 := by linarith
    have hcube : (-2 * b + 2) ^ 3 ≤ (-2 * a + 2) ^ 3 := by
      nlinarith [sq_nonneg ((-2 * b + 2) + (-2 * a + 2)), sq_nonneg ((-2 * b + 2) - (-2 * a + 2)),
        sq_nonneg (-2 * b + 2), sq_nonneg (-2 * a + 2)]
    linarith

theorem easeInOutCubic_nonneg {a : ℚ} (h0 : 0 ≤ a) (h1 : a ≤ 1) :
    0 ≤ easeInOutCubic a := by
  unfold easeInOutCubic
  split_ifs with ha
  · positivity
  · push_neg at ha
    have hu0 : (0 : ℚ) ≤ -2 * a + 2 := by linarith
    have hu1 : -2 * a + 2 ≤ 1 := by linarith
    nlinarith [sq_nonneg (-2 * a + 2)]

theorem easeInOutCubic_le_one {a : ℚ} (h0 : 0 ≤ a) (h1 : a ≤ 1) :
    easeInOutCubic a ≤ 1 := by
  unfold easeInOutCubic
  split_ifs with ha
  · nlinarith [sq_nonneg a]
  · push_neg at ha
    have hu0 : (0 : ℚ) ≤ -2 * a + 2 := by linarith
    nlinarith [sq_nonneg (-2 * a + 2)]

theorem smoothstep01_mono {a b : ℚ} (hab : a ≤ b) :
    smoothstep 0 1 a ≤ smoothstep 0 1 b := by
  unfold smoothstep
  have ea : (a - 0) / (1 - 0) = a := by ring
  have eb : (b - 0) / (1 - 0) = b := by ring
  rw [ea, eb]
  show (max 0 (min 1 a)) * (max 0 (min 1 a)) * (3 - 2 * max 0 (min 1 a)) ≤
    (max 0 (min 1 b)) * (max 0 (min 1 b)) * (3 - 2 * max 0 (min 1 b))
  set ta := max 0 (min 1 a) with hta
  set tb := max 0 (min 1 b) with htb
  have hta0 : 0 ≤ ta := le_max_left _ _
  have htb0 : 0 ≤ tb := le_max_left _ _
  have hta1 : ta ≤ 1 := max_le (by norm_num) (min_le_left _ _)
  have htb1 : tb ≤ 1 := max_le (by norm_num) (min_le_left _ _)
  have htt : ta ≤ tb := max_le_max le_rfl (min_le_min le_rfl hab)
  nlinarith [mul_nonneg (sub_nonneg.2 htt) (mul_nonneg hta0 (sub_nonneg.2 hta1)),
    mul_nonneg (sub_nonneg.2 htt) (mul_nonneg htb0 (sub_nonneg.2 htb1)),
    mul_nonneg (sub_nonneg.2 htt) (mul_nonneg hta0 (sub_nonneg.2 htb1)),
    mul_nonneg (sub_nonneg.2 htt) (mul_nonneg htb0 (sub_nonneg.2 hta1))]

theorem smoothstep01_nonneg (a : ℚ) : 0 ≤ smoothstep 0 1 a := by
  unfold smoothstep
  have hta0 : 0 ≤ max 0 (min 1 ((a - 0) / (1 - 0))) := le_max_left _ _
  have hta1 : max 0 (min 1 ((a - 0) / (1 - 0))) ≤ 1 :=
    max_le (by norm_num) (min_le_left _ _)
  nlinarith

theorem smoothstep01_le_one (a : ℚ) : smoothstep 0 1 a ≤ 1 := by
  unfold smoothstep
  have hta0 : 0 ≤ max 0 (min 1 ((a - 0) / (1 - 0))) := le_max_left _ _
  have hta1 : max 0 (min 1 ((a - 0) / (1 - 0))) ≤ 1 :=
    max_le (by norm_num) (min_le_left _ _)
  nlinarith [sq_nonneg (1 - max 0 (min 1 ((a - 0) / (1 - 0))))]

theorem subtleZone_le {x : ℚ} (h0 : 0 ≤ x) (h1 : x ≤ 0.4) : subtleZone x ≤ 0.2 := by
  unfold subtleZone
  have harg1 : (0 : ℚ) ≤ x / 0.4 := div_nonneg h0 (by norm_num)
  have harg2 : x / 0.4 ≤ 1 := by
    rw [div_le_one (by norm_num : (0:ℚ) < 0.4)]; linarith
  have := easeInOutCubic_le_one harg1 harg2
  linarith

theorem expressiveZone_bounds {y : ℚ} :
    0.2 ≤ expressiveZone y ∧ expressiveZone y ≤ 0.7 := by
  unfold expressiveZone
  have h1 := smoothstep01_nonneg ((y - 0.4) / 0.4)
  have h2 := smoothstep01_le_one ((y - 0.4) / 0.4)
  constructor <;> nlinarith

theorem experimentalZone_ge {y : ℚ} (h8 : 0.8 ≤ y) (h1 : y ≤ 1) :
    0.7 ≤ experimentalZone y := by
  unfold experimentalZone
  have harg1 : (0 : ℚ) ≤ (y - 0.8) / 0.2 := div_nonneg (by linarith) (by norm_num)
  have harg2 : (y - 0.8) / 0.2 ≤ 1 := by
    rw [div_le_one (by norm_num : (0:ℚ) < 0.2)]; linarith
  have := easeInOutCubic_nonneg harg1 harg2
  linarith

end PerceptualMapping

/-- C1: on [0,1] mapToPerceptualZone is monotonic non-decreasing, maps 0
to 0 and 1 to 1, the adjoining branch formulas differ by at most 1e-6 at
the segment boundaries 0.4 and 0.8 (in fact they agree exactly), and
mapToPerceptualZone 0.4 = 0.2 with both adjoining formulas producing 0.2
at 0.4. -/
theorem mapToPerceptualZone_spec :
    (∀ x y : ℚ, 0 ≤ x → x ≤ y → y ≤ 1 →
      PerceptualMapping.mapToPerceptualZone x ≤ PerceptualMapping.mapToPerceptualZone y) ∧
    PerceptualMapping.mapToPerceptualZone 0 = 0 ∧
    PerceptualMapping.mapToPerceptualZone 1 = 1 ∧
    |PerceptualMapping.subtleZone 0.4 - PerceptualMapping.expressiveZone 0.4| ≤ 1/1000000 ∧
    |PerceptualMapping.expressiveZone 0.8 - PerceptualMapping.experimentalZone 0.8| ≤ 1/1000000 ∧
    PerceptualMapping.mapToPerceptualZone 0.4 = 0.2 ∧
    PerceptualMapping.subtleZone 0.4 = 0.2 ∧
    PerceptualMapping.expressiveZone 0.4 = 0.2 := by
  have hsub : PerceptualMapping.subtleZone 0.4 = 0.2 := by
    norm_num [PerceptualMapping.subtleZone, PerceptualMapping.easeInOutCubic]
  have hexp4 : PerceptualMapping.expressiveZone 0.4 = 0.2 := by
    norm_num [PerceptualMapping.expressiveZone, PerceptualMapping.smoothstep]
  have hexp8 : PerceptualMapping.expressiveZone 0.8 = 0.7 := by
    norm_num [PerceptualMapping.expressiveZone, PerceptualMapping.smoothstep]
  have hxpr8 : PerceptualMapping.experimentalZone 0.8 = 0.7 := by
    norm_num [PerceptualMapping.experimentalZone, PerceptualMapping.easeInOutCubic]
  refine ⟨?_, ?_, ?_, ?_, ?_, ?_, hsub, hexp4⟩
  · intro x y hx hxy hy
    unfold PerceptualMapping.mapToPerceptualZone
    rcases le_or_lt x 0.4 with hx4 | hx4
    · rw [if_pos hx4]
      rcases le_or_lt y 0.4 with hy4 | hy4
      · rw [if_pos hy4]
        unfold PerceptualMapping.subtleZone
        have h1 : (0:ℚ) ≤ x / 0.4 := div_nonneg hx (by norm_num)
        have h2 : x / 0.4 ≤ y / 0.4 := by gcongr
        have h3 : y / 0.4 ≤ 1 := by
          rw [div_le_one (by norm_num : (0:ℚ) < 0.4)]; linarith
        have := PerceptualMapping.easeInOutCubic_mono h1 h2 h3
        linarith
      · rw [if_neg (not_le.2 hy4)]
        rcases le_or_lt y 0.8 with hy8 | hy8
        · rw [if_pos hy8]
          have l1 := PerceptualMapping.subtleZone_le hx hx4
          have l2 := (PerceptualMapping.expressiveZone_bounds (y := y)).1
          linarith
        · rw [if_neg (not_le.2 hy8)]
          have l1 := PerceptualMapping.subtleZone_le hx hx4
          have l2 := PerceptualMapping.experimentalZone_ge (le_of_lt hy8) hy
          linarith
    · rw [if_neg (not_le.2 hx4)]
      rcases le_or_lt x 0.8 with hx8 | hx8
      · rw [if_pos hx8]
        have hy4 : ¬ y ≤ 0.4 := by intro h; exact absurd (le_trans hxy h) (not_le.2 hx4)
        rw [if_neg hy4]
        rcases le_or_lt y 0.8 with hy8 | hy8
        · rw [if_pos hy8]
          unfold PerceptualMapping.expressiveZone
          have h2 : (x - 0.4) / 0.4 ≤ (y - 0.4) / 0.4 := by gcongr
          have := PerceptualMapping.smoothstep01_mono h2
          linarith
        · rw [if_neg (not_le.2 hy8)]
          have l1 := (PerceptualMapping.expressiveZone_bounds (y := x)).2
          have l2 := PerceptualMapping.experimentalZone_ge (le_of_lt hy8) hy
          linarith
      · rw [if_neg (not_le.2 hx8)]
        have hy4 : ¬ y ≤ 0.4 := by intro h; nlinarith [le_trans hxy h]
        have hy8 : ¬ y ≤ 0.8 := by intro h; exact absurd (le_trans hxy h) (not_le.2 hx8)
        rw [if_neg hy4, if_neg hy8]
        unfold PerceptualMapping.experimentalZone
        have h1 : (0:ℚ) ≤ (x - 0.8) / 0.2 := div_nonneg (by linarith) (by norm_num)
        have h2 : (x - 0.8) / 0.2 ≤ (y - 0.8) / 0.2 := by gcongr
        have h3 : (y - 0.8) / 0.2 ≤ 1 := by
          rw [div_le_one (by norm_num : (0:ℚ) < 0.2)]; linarith
        have := PerceptualMapping.easeInOutCubic_mono h1 h2 h3
        linarith
  · norm_num [PerceptualMapping.mapToPerceptualZone, PerceptualMapping.subtleZone,
      PerceptualMapping.easeInOutCubic]
  · norm_num [PerceptualMapping.mapToPerceptualZone, PerceptualMapping.experimentalZone,
      PerceptualMapping.easeInOutCubic]
  · rw [hsub, hexp4]; norm_num
  · rw [hexp8, hxpr8]; norm_num
  · have : (0.4 : ℚ) ≤ 0.4 := le_refl _
    rw [PerceptualMapping.mapToPerceptualZone, if_pos this]
    exact hsub

/-- Witness for C1: the monotonicity conjunct applied at x = 0.3,
y = 0.5. -/
theorem mapToPerceptualZone_spec_witness :
    PerceptualMapping.mapToPerceptualZone 0.3 ≤ PerceptualMapping.mapToPerceptualZone 0.5 :=
  mapToPerceptualZone_spec.1 0.3 0.5 (by norm_num) (by norm_num) (by norm_num)

namespace SeedCodec

theorem hexDigitU_facts : ∀ n : ℕ, n < 16 →
    isHexUpper (hexDigitU n) = true ∧ isWS (hexDigitU n) = false ∧
    Char.toUpper (hexDigitU n) = hexDigitU n ∧ hexVal (hexDigitU n) = n := by
  decide

theorem clampByte_lt (z : ℤ) : clampByte z < 256 := by
  unfold clampByte
  have h1 : min 255 (max 0 z) ≤ 255 := min_le_left _ _
  omega

theorem clampByte_of_bounds {z : ℤ} (h0 : 0 ≤ z) (h1 : z ≤ 255) :
    (clampByte z : ℤ) = z := by
  unfold clampByte
  rw [max_eq_right h0, min_eq_right h1, Int.toNat_of_nonneg h0]

theorem byteToHexPair_parse {b : ℕ} (hb : b < 256) :
    hexVal (hexDigitU (b / 16)) * 16 + hexVal (hexDigitU (b % 16)) = b := by
  have h1 : b / 16 < 16 := by omega
  have h2 : b % 16 < 16 := by omega
  rw [(hexDigitU_facts _ h1).2.2.2, (hexDigitU_facts _ h2).2.2.2]
  omega

theorem encode_flatMap_props (zs : List ℤ) :
    (∀ c ∈ zs.flatMap (fun z => byteToHexPair (clampByte z)),
      isHexUpper c = true ∧ isWS c = false ∧ Char.toUpper c = c) ∧
    (zs.flatMap (fun z => byteToHexPair (clampByte z))).length = 2 * zs.length ∧
    pairBytes (zs.flatMap (fun z => byteToHexPair (clampByte z))) = zs.map clampByte := by
  induction zs with
  | nil => exact ⟨by simp, by simp, rfl⟩
  | cons z rest ih =>
    obtain ⟨ihc, ihl, ihp⟩ := ih
    have hhi : clampByte z / 16 < 16 := by have := clampByte_lt z; omega
    have hlo : clampByte z % 16 < 16 := by omega
    refine ⟨?_, ?_, ?_⟩
    · intro c hc
      rw [List.flatMap_cons] at hc
      rcases List.mem_append.1 hc with hin | hin
      · unfold byteToHexPair at hin
        simp only [List.mem_cons, List.not_mem_nil, or_false] at hin
        rcases hin with rfl | rfl
        · exact ⟨(hexDigitU_facts _ hhi).1, (hexDigitU_facts _ hhi).2.1,
            (hexDigitU_facts _ hhi).2.2.1⟩
        · exact ⟨(hexDigitU_facts _ hlo).1, (hexDigitU_facts _ hlo).2.1,
            (hexDigitU_facts _ hlo).2.2.1⟩
      · exact ihc c hin
    · rw [List.flatMap_cons, List.length_append, ihl]
      unfold byteToHexPair
      simp [Nat.mul_succ]
      ring
    · rw [List.flatMap_cons]
      unfold byteToHexPair
      show pairBytes (_ :: _ :: _) = _
      rw [pairBytes]
      show (hexVal (hexDigitU (clampByte z / 16)) * 16 + hexVal (hexDigitU (clampByte z % 16))) ::
          pairBytes (rest.flatMap fun w => byteToHexPair (clampByte w)) = List.map clampByte (z :: rest)
      rw [ihp, byteToHexPair_parse (clampByte_lt z)]
      rfl

theorem dropWhile_eq_self_of {p : Char → Bool} {l : List Char}
    (h : ∀ c ∈ l, p c = false) : l.dropWhile p = l := by
  cases l with
  | nil => rfl
  | cons c cs =>
    rw [List.dropWhile_cons]
    simp [h c (List.mem_cons_self _ _)]

theorem jsTrim_eq_self {l : List Char} (h : ∀ c ∈ l, isWS c = false) :
    jsTrim l = l := by
  unfold jsTrim
  rw [dropWhile_eq_self_of h, dropWhile_eq_self_of, List.reverse_reverse]
  intro c hc
  exact h c (List.mem_reverse.1 hc)

theorem jsUpper_eq_self {l : List Char} (h : ∀ c ∈ l, Char.toUpper c = c) :
    jsUpper l = l := by
  unfold jsUpper
  rw [List.map_congr_left h]
  exact List.map_id' l

/-- JS Math.round(x*255) stays a byte for x in [0,1] and its value is
within half a quantization step of x*255. -/
theorem round_byte {x : ℚ} (h0 : 0 ≤ x) (h1 : x ≤ 1) :
    0 ≤ jsRound (x * 255) ∧ jsRound (x * 255) ≤ 255 ∧
    |((jsRound (x * 255) : ℤ) : ℚ) / 255 - x| ≤ 1/255 := by
  unfold jsRound
  have hfl : ((⌊x * 255 + 1/2⌋ : ℤ) : ℚ) ≤ x * 255 + 1/2 := Int.floor_le _
  have hfg : x * 255 + 1/2 < ((⌊x * 255 + 1/2⌋ : ℤ) : ℚ) + 1 := Int.lt_floor_add_one _
  refine ⟨?_, ?_, ?_⟩
  · have : (0 : ℚ) ≤ x * 255 + 1/2 := by linarith
    exact_mod_cast Int.le_floor.2 (by push_cast; linarith)
  · have h2 : (⌊x * 255 + 1/2⌋ : ℤ) < 256 := Int.floor_lt.2 (by push_cast; linarith)
    omega
  · rw [abs_le]
    constructor <;> linarith

theorem byte_accuracy {x : ℚ} (h0 : 0 ≤ x) (h1 : x ≤ 1) :
    |((clampByte (jsRound (x * 255)) : ℕ) : ℚ) / 255 - x| ≤ 1/255 := by
  obtain ⟨hz0, hz255, hacc⟩ := round_byte h0 h1
  have hc : ((clampByte (jsRound (x * 255)) : ℕ) : ℚ)
      = ((jsRound (x * 255) : ℤ) : ℚ) := by
    rw [show ((clampByte (jsRound (x * 255)) : ℕ) : ℚ)
        = (((clampByte (jsRound (x * 255)) : ℕ) : ℤ) : ℚ) by push_cast; ring,
      clampByte_of_bounds hz0 hz255]
  rw [hc]
  exact hacc

end SeedCodec

namespace SeedCodec

theorem encodeSeed_chars {p : VisualizerParams} {a : AudioEffectParams} :
    ∀ c ∈ encodeSeed p a, isWS c = false ∧ Char.toUpper c = c := by
  intro c hc
  unfold encodeSeed at hc
  simp only [List.mem_cons] at hc
  rcases hc with rfl | rfl | rfl | hin
  · exact ⟨by decide, by decide⟩
  · exact ⟨by decide, by decide⟩
  · exact ⟨by decide, by decide⟩
  · obtain ⟨h1, h2, h3⟩ := (encode_flatMap_props (encodeBytes p a)).1 c hin
    exact ⟨h2, h3⟩

theorem decodeSeed_encodeSeed (p : VisualizerParams) (a : AudioEffectParams) :
    decodeSeed (encodeSeed p a) = some
      (⟨((clampByte (jsRound (p.dose * 255)) : ℕ) : ℚ) / 255,
        ((clampByte (jsRound (p.symmetry * 255)) : ℕ) : ℚ) / 255,
        ((clampByte (jsRound (p.recursion * 255)) : ℕ) : ℚ) / 255,
        ((clampByte (jsRound (p.breathing * 255)) : ℕ) : ℚ) / 255,
        ((clampByte (jsRound (p.flow * 255)) : ℕ) : ℚ) / 255,
        ((clampByte (jsRound (p.saturation * 255)) : ℕ) : ℚ) / 255⟩,
       ⟨((clampByte (jsRound (a.echo * 255)) : ℕ) : ℚ) / 255,
        ((clampByte (jsRound (a.drift * 255)) : ℕ) : ℚ) / 255,
        ((clampByte (jsRound (a.break_ * 255)) : ℕ) : ℚ) / 255⟩) := by
  obtain ⟨hchars, hlen, hpair⟩ := encode_flatMap_props (encodeBytes p a)
  have hne : ¬ (encodeSeed p a = []) := by unfold encodeSeed; simp
  have htrim : jsTrim (encodeSeed p a) = encodeSeed p a :=
    jsTrim_eq_self (fun c hc => (encodeSeed_chars c hc).1)
  have hupper : jsUpper (encodeSeed p a) = encodeSeed p a :=
    jsUpper_eq_self (fun c hc => (encodeSeed_chars c hc).2)
  have hcanon : canonSeed (encodeSeed p a)
      = (encodeBytes p a).flatMap (fun z => byteToHexPair (clampByte z)) := by
    unfold canonSeed
    rw [htrim, hupper]
    show (if (encodeSeed p a).take 3 = ['S', 'R', '-']
      then (encodeSeed p a).drop 3 else encodeSeed p a) = _
    unfold encodeSeed
    rw [if_pos (show List.take 3 ('S' :: 'R' :: '-' ::
      (encodeBytes p a).flatMap fun z => byteToHexPair (clampByte z)) = ['S', 'R', '-'] from rfl)]
    rfl
  have hhex : isHex18
      ((encodeBytes p a).flatMap (fun z => byteToHexPair (clampByte z))) = true := by
    unfold isHex18
    rw [hlen]
    have h9 : (encodeBytes p a).length = 9 := rfl
    rw [h9]
    simp only [Nat.reduceMul, beq_self_eq_true, Bool.true_and]
    rw [List.all_eq_true]
    intro c hc
    exact (hchars c hc).1
  unfold decodeSeed
  rw [if_neg hne, hcanon, if_pos hhex, hpair]
  unfold encodeBytes
  simp only [List.map_cons, List.map_nil, List.getD_cons_zero, List.getD_cons_succ]

end SeedCodec

/-- C2: for parameters whose nine components lie in [0,1], decoding the
encoded seed succeeds and reproduces every component within 1/255. -/
theorem seed_roundtrip (p : SeedCodec.VisualizerParams) (a : SeedCodec.AudioEffectParams)
    (hdose : 0 ≤ p.dose ∧ p.dose ≤ 1) (hsym : 0 ≤ p.symmetry ∧ p.symmetry ≤ 1)
    (hrec : 0 ≤ p.recursion ∧ p.recursion ≤ 1) (hbre : 0 ≤ p.breathing ∧ p.breathing ≤ 1)
    (hflo : 0 ≤ p.flow ∧ p.flow ≤ 1) (hsat : 0 ≤ p.saturation ∧ p.saturation ≤ 1)
    (hech : 0 ≤ a.echo ∧ a.echo ≤ 1) (hdri : 0 ≤ a.drift ∧ a.drift ≤ 1)
    (hbrk : 0 ≤ a.break_ ∧ a.break_ ≤ 1) :
    ∃ q b, SeedCodec.decodeSeed (SeedCodec.encodeSeed p a) = some (q, b) ∧
      |q.dose - p.dose| ≤ 1/255 ∧ |q.symmetry - p.symmetry| ≤ 1/255 ∧
      |q.recursion - p.recursion| ≤ 1/255 ∧ |q.breathing - p.breathing| ≤ 1/255 ∧
      |q.flow - p.flow| ≤ 1/255 ∧ |q.saturation - p.saturation| ≤ 1/255 ∧
      |b.echo - a.echo| ≤ 1/255 ∧ |b.drift - a.drift| ≤ 1/255 ∧
      |b.break_ - a.break_| ≤ 1/255 := by
  refine ⟨_, _, SeedCodec.decodeSeed_encodeSeed p a,
    SeedCodec.byte_accuracy hdose.1 hdose.2, SeedCodec.byte_accuracy hsym.1 hsym.2,
    SeedCodec.byte_accuracy hrec.1 hrec.2, SeedCodec.byte_accuracy hbre.1 hbre.2,
    SeedCodec.byte_accuracy hflo.1 hflo.2, SeedCodec.byte_accuracy hsat.1 hsat.2,
    SeedCodec.byte_accuracy hech.1 hech.2, SeedCodec.byte_accuracy hdri.1 hdri.2,
    SeedCodec.byte_accuracy hbrk.1 hbrk.2⟩

/-- Witness for C2 at the all-components-one-half parameter set. -/
theorem seed_roundtrip_witness :
    ∃ q b, SeedCodec.decodeSeed
        (SeedCodec.encodeSeed ⟨1/2, 1/2, 1/2, 1/2, 1/2, 1/2⟩ ⟨1/2, 1/2, 1/2⟩)
      = some (q, b) ∧
      |q.dose - 1/2| ≤ 1/255 ∧ |q.symmetry - 1/2| ≤ 1/255 ∧
      |q.recursion - 1/2| ≤ 1/255 ∧ |q.breathing - 1/2| ≤ 1/255 ∧
      |q.flow - 1/2| ≤ 1/255 ∧ |q.saturation - 1/2| ≤ 1/255 ∧
      |b.echo - 1/2| ≤ 1/255 ∧ |b.drift - 1/2| ≤ 1/255 ∧
      |b.break_ - 1/2| ≤ 1/255 :=
  seed_roundtrip ⟨1/2, 1/2, 1/2, 1/2, 1/2, 1/2⟩ ⟨1/2, 1/2, 1/2⟩
    ⟨by norm_num, by norm_num⟩ ⟨by norm_num, by norm_num⟩ ⟨by norm_num, by norm_num⟩
    ⟨by norm_num, by norm_num⟩ ⟨by norm_num, by norm_num⟩ ⟨by norm_num, by norm_num⟩
    ⟨by norm_num, by norm_num⟩ ⟨by norm_num, by norm_num⟩ ⟨by norm_num, by norm_num⟩

/-- C3: any input whose trimmed, uppercased, prefix-stripped form fails
the 18-hex-character test is rejected: decodeSeed returns null and
isValidSeed returns false (both functions are total, so no input makes
either throw). -/
theorem invalid_seed_rejected (l : List Char)
    (h : SeedCodec.isHex18 (SeedCodec.canonSeed l) = false) :
    SeedCodec.decodeSeed l = none ∧ SeedCodec.isValidSeed l = false := by
  unfold SeedCodec.decodeSeed SeedCodec.isValidSeed
  by_cases he : l = [] <;> simp [he, h]

/-- Witness for C3 at the input not-a-seed. -/
theorem invalid_seed_rejected_witness :
    SeedCodec.decodeSeed ['n', 'o', 't', '-', 'a', '-', 's', 'e', 'e', 'd'] = none ∧
    SeedCodec.isValidSeed ['n', 'o', 't', '-', 'a', '-', 's', 'e', 'e', 'd'] = false :=
  invalid_seed_rejected _ (by decide)

/-- C9: isValidSeed accepts exactly the inputs decodeSeed decodes, since
both run the same trim, uppercase, prefix-strip and 18-hex-char test. -/
theorem valid_iff_decodable (l : List Char) :
    SeedCodec.isValidSeed l = true ↔ (SeedCodec.decodeSeed l).isSome = true := by
  unfold SeedCodec.isValidSeed SeedCodec.decodeSeed
  by_cases he : l = []
  · simp [he]
  · by_cases hx : SeedCodec.isHex18 (SeedCodec.canonSeed l) = true <;> simp [he, hx]

theorem loopSum_eq_sum_Ico {α : Type} [AddCommMonoid α] (f : ℕ → α) :
    ∀ (count start : ℕ),
      loopSum f start count = ∑ i in Finset.Ico start (start + count), f i := by
  intro count
  induction count with
  | zero => intro start; simp [loopSum]
  | succ n ih =>
    intro start
    rw [loopSum, ih (start + 1),
      Finset.sum_eq_sum_Ico_succ_bot (by omega : start < start + (n + 1)) f]
    have he : start + 1 + n = start + (n + 1) := by omega
    rw [he]

theorem getBandEnergy_eq_specRMS (data : List ℕ) (startBin endBin : ℕ) :
    AnalyzerV2.getBandEnergy data startBin endBin
      = AnalyzerV2.specRMS data startBin endBin := by
  unfold AnalyzerV2.getBandEnergy AnalyzerV2.specRMS
  rw [loopSum_eq_sum_Ico]
  rcases le_total startBin (min endBin data.length) with h | h
  · rw [Nat.add_sub_cancel' h]
    congr 1
    congr 1
    exact Finset.sum_congr rfl (fun i _ => by ring)
  · have h0 : min endBin data.length - startBin = 0 := by omega
    rw [h0]
    have he1 : Finset.Ico startBin (startBin + 0) = ∅ := by simp
    have he2 : Finset.Ico startBin (min endBin data.length) = ∅ :=
      Finset.Ico_eq_empty (by omega)
    rw [he1, he2]
    simp

theorem sqrt_eq_of_sq_eq {x y : ℝ} (hy : 0 ≤ y) (hxy : y ^ 2 = x) :
    Real.sqrt x = y := by
  rw [← hxy, Real.sqrt_sq hy]

theorem specRMS_017 : AnalyzerV2.specRMS [0, 1, 7] 1 7 = 5/255 := by
  unfold AnalyzerV2.specRMS
  rw [show min 7 (List.length [0, 1, 7]) = 3 from rfl,
    show (Finset.Ico 1 3 : Finset ℕ) = {1, 2} from by decide,
    Finset.sum_pair (by norm_num : (1:ℕ) ≠ 2)]
  apply sqrt_eq_of_sq_eq (by norm_num)
  norm_num [show List.getD [0, 1, 7] 1 0 = 1 from rfl,
    show List.getD [0, 1, 7] 2 0 = 7 from rfl]

theorem specRMS_017_3 : AnalyzerV2.specRMS [0, 1, 7] 1 3 = 5/255 := by
  unfold AnalyzerV2.specRMS
  rw [show min 3 (List.length [0, 1, 7]) = 3 from rfl,
    show (Finset.Ico 1 3 : Finset ℕ) = {1, 2} from by decide,
    Finset.sum_pair (by norm_num : (1:ℕ) ≠ 2)]
  apply sqrt_eq_of_sq_eq (by norm_num)
  norm_num [show List.getD [0, 1, 7] 1 0 = 1 from rfl,
    show List.getD [0, 1, 7] 2 0 = 7 from rfl]

/-- C8 counterexample: in the first analyzer variant the bass band
energy getAverageInRange(1, 7) is the arithmetic mean of the
magnitudes, not their RMS: at the spectrum [0, 1, 7] it yields 4/255
while the RMS of the same bin range is 5/255. -/
theorem band_energy_claim_cex :
    AnalyzerV1.getAverageInRange [0, 1, 7] 1 7 = 4/255 ∧
    ((AnalyzerV1.getAverageInRange [0, 1, 7] 1 7 : ℚ) : ℝ)
      ≠ AnalyzerV2.specRMS [0, 1, 7] 1 7 := by
  have hav : AnalyzerV1.getAverageInRange [0, 1, 7] 1 7 = 4/255 := by
    unfold AnalyzerV1.getAverageInRange
    norm_num [loopSum]
  refine ⟨hav, ?_⟩
  rw [hav, specRMS_017]
  push_cast
  norm_num

/-- C8 amended: in the second (advanced) analyzer variant, band energies
are computed by getBandEnergy as the RMS of the normalized magnitudes
over the bin range, which differs from the arithmetic mean (witnessed at
the spectrum [0, 1, 7], where the RMS is 5/255 and the mean 4/255); the
first variant instead uses the arithmetic mean getAverageInRange. -/
theorem band_energy_amended :
    (∀ (data : List ℕ) (startBin endBin : ℕ),
      AnalyzerV2.getBandEnergy data startBin endBin
        = AnalyzerV2.specRMS data startBin endBin) ∧
    AnalyzerV2.getBandEnergy [0, 1, 7] 1 3
      ≠ ((AnalyzerV1.getAverageInRange [0, 1, 7] 1 3 : ℚ) : ℝ) := by
  refine ⟨getBandEnergy_eq_specRMS, ?_⟩
  rw [getBandEnergy_eq_specRMS, specRMS_017_3]
  have hav : AnalyzerV1.getAverageInRange [0, 1, 7] 1 3 = 4/255 := by
    unfold AnalyzerV1.getAverageInRange
    norm_num [loopSum]
  rw [hav]
  push_cast
  norm_num

theorem getD_replicate_of_lt {α : Type} {v d : α} :
    ∀ {n i : ℕ}, i < n → (List.replicate n v).getD i d = v := by
  intro n
  induction n with
  | zero => intro i h; omega
  | succ m ih =>
    intro i h
    cases i with
    | zero => rw [List.replicate_succ, List.getD_cons_zero]
    | succ k => rw [List.replicate_succ, List.getD_cons_succ]; exact ih (by omega)

theorem loopSum_const {α : Type} [AddCommMonoid α] (c : α) (g : ℕ → α) :
    ∀ (count start : ℕ), (∀ i, start ≤ i → i < start + count → g i = c) →
      loopSum g start count = count • c := by
  intro count
  induction count with
  | zero => intro start _; simp [loopSum]
  | succ n ih =>
    intro start h
    rw [loopSum, h start le_rfl (by omega),
      ih (start + 1) (fun i h1 h2 => h i (by omega) (by omega)),
      succ_nsmul, add_comm]

theorem getAverageInRange_replicate (n v s e : ℕ) (h : s < min e n) :
    AnalyzerV1.getAverageInRange (List.replicate n v) s e = (v : ℚ) / 255 := by
  unfold AnalyzerV1.getAverageInRange
  rw [List.length_replicate]
  rw [loopSum_const ((v : ℕ) : ℚ) _ _ _
    (fun i h1 h2 => by rw [getD_replicate_of_lt (by omega)])]
  have h0 : ((min e n - s : ℕ) : ℚ) ≠ 0 := Nat.cast_ne_zero.2 (by omega)
  rw [nsmul_eq_mul]
  field_simp

theorem cex_avg0 : AnalyzerV1.getAverageInRange (List.replicate 7 0) 1 7 = 0 := by
  rw [getAverageInRange_replicate 7 0 1 7 (by norm_num)]
  norm_num

theorem cex_avg255 : AnalyzerV1.getAverageInRange (List.replicate 7 255) 1 7 = 1 := by
  rw [getAverageInRange_replicate 7 255 1 7 (by norm_num)]
  norm_num

theorem cex_state1 : AnalyzerV1.runStates AnalyzerV1.cexFrames 1 = ⟨0, [0], 0⟩ := by
  show (AnalyzerV1.analyzeStep AnalyzerV1.initState (AnalyzerV1.cexFrames 0)).1 = _
  rw [show AnalyzerV1.cexFrames 0 = ⟨List.replicate 7 0, 0⟩ from rfl]
  unfold AnalyzerV1.analyzeStep AnalyzerV1.initState AnalyzerV1.smooth
  norm_num [cex_avg0]

theorem cex_state2 : AnalyzerV1.runStates AnalyzerV1.cexFrames 2 = ⟨1/2, [0, 1/2], 0⟩ := by
  show (AnalyzerV1.analyzeStep (AnalyzerV1.runStates AnalyzerV1.cexFrames 1)
    (AnalyzerV1.cexFrames 1)).1 = _
  rw [cex_state1, show AnalyzerV1.cexFrames 1 = ⟨List.replicate 7 255, 110⟩ from rfl]
  unfold AnalyzerV1.analyzeStep AnalyzerV1.smooth
  norm_num [cex_avg255]

theorem cex_state3 :
    AnalyzerV1.runStates AnalyzerV1.cexFrames 3 = ⟨3/4, [0, 1/2, 3/4], 220⟩ := by
  show (AnalyzerV1.analyzeStep (AnalyzerV1.runStates AnalyzerV1.cexFrames 2)
    (AnalyzerV1.cexFrames 2)).1 = _
  rw [cex_state2, show AnalyzerV1.cexFrames 2 = ⟨List.replicate 7 255, 220⟩ from rfl]
  unfold AnalyzerV1.analyzeStep AnalyzerV1.smooth
  norm_num [cex_avg255]

theorem cex_beat2 : AnalyzerV1.beatAt AnalyzerV1.cexFrames 2 = true := by
  show (AnalyzerV1.analyzeStep (AnalyzerV1.runStates AnalyzerV1.cexFrames 2)
    (AnalyzerV1.cexFrames 2)).2 = true
  rw [cex_state2, show AnalyzerV1.cexFrames 2 = ⟨List.replicate 7 255, 220⟩ from rfl]
  unfold AnalyzerV1.analyzeStep AnalyzerV1.smooth
  norm_num [cex_avg255]

theorem cex_beat3 : AnalyzerV1.beatAt AnalyzerV1.cexFrames 3 = true := by
  show (AnalyzerV1.analyzeStep (AnalyzerV1.runStates AnalyzerV1.cexFrames 3)
    (AnalyzerV1.cexFrames 3)).2 = true
  rw [cex_state3, show AnalyzerV1.cexFrames 3 = ⟨List.replicate 7 255, 330⟩ from rfl]
  unfold AnalyzerV1.analyzeStep AnalyzerV1.smooth
  norm_num [cex_avg255]

theorem cex_bass3 :
    (AnalyzerV1.analyzeStep (AnalyzerV1.runStates AnalyzerV1.cexFrames 3)
      (AnalyzerV1.cexFrames 3)).1.smoothedBass = 7/8 := by
  rw [cex_state3, show AnalyzerV1.cexFrames 3 = ⟨List.replicate 7 255, 330⟩ from rfl]
  unfold AnalyzerV1.analyzeStep AnalyzerV1.smooth
  norm_num [cex_avg255]

/-- C7 counterexample: the first analyzer variant reports beats under a
simpler rule (bass above 1.5x the rolling mean, fixed 0.6 floor, 100 ms
cooldown).  On a sustained full-scale bass spike it reports beats on two
frames only 110 ms apart, inside the roughly 120 ms cooldown the claim
states, and the second of those beats fires although bass did not exceed
the previous frame bass by more than the 1.2x factor the claim requires. -/
theorem beat_claim_cex :
    AnalyzerV1.beatAt AnalyzerV1.cexFrames 2 = true ∧
    AnalyzerV1.beatAt AnalyzerV1.cexFrames 3 = true ∧
    (AnalyzerV1.cexFrames 3).now - (AnalyzerV1.cexFrames 2).now = 110 ∧
    ¬((AnalyzerV1.cexFrames 3).now - (AnalyzerV1.cexFrames 2).now > 120) ∧
    ¬((AnalyzerV1.analyzeStep (AnalyzerV1.runStates AnalyzerV1.cexFrames 3)
          (AnalyzerV1.cexFrames 3)).1.smoothedBass
        > (AnalyzerV1.runStates AnalyzerV1.cexFrames 3).smoothedBass * 1.2) := by
  refine ⟨cex_beat2, cex_beat3, by norm_num [AnalyzerV1.cexFrames],
    by norm_num [AnalyzerV1.cexFrames], ?_⟩
  rw [cex_bass3, cex_state3]
  norm_num

namespace AnalyzerV2

open Classical in
theorem analyzeStep_lastBeat_of_beat {s : V2State} {f : Frame}
    (h : beatDetected s f) : (analyzeStep s f).lastBeatTime = f.now := by
  show (if beatDetected s f then f.now else s.lastBeatTime) = f.now
  exact if_pos h

open Classical in
theorem analyzeStep_lastBeat_of_not {s : V2State} {f : Frame}
    (h : ¬ beatDetected s f) : (analyzeStep s f).lastBeatTime = s.lastBeatTime := by
  show (if beatDetected s f then f.now else s.lastBeatTime) = s.lastBeatTime
  exact if_neg h

theorem lastBeat_ge {s0 : V2State} {fs : ℕ → Frame}
    (hmono : ∀ m n : ℕ, m ≤ n → (fs m).now ≤ (fs n).now)
    {i : ℕ} (hbeat : beatDetected (runStates s0 fs i) (fs i)) :
    ∀ k, i < k → (fs i).now ≤ (runStates s0 fs k).lastBeatTime := by
  intro k
  induction k with
  | zero => intro h; omega
  | succ n ih =>
    intro hk
    rcases Nat.lt_succ_iff_lt_or_eq.1 hk with h | h
    · show (fs i).now ≤ (analyzeStep (runStates s0 fs n) (fs n)).lastBeatTime
      by_cases hb : beatDetected (runStates s0 fs n) (fs n)
      · rw [analyzeStep_lastBeat_of_beat hb]
        exact hmono i n (le_of_lt h)
      · rw [analyzeStep_lastBeat_of_not hb]
        exact ih h
    · subst h
      show (fs i).now ≤ (analyzeStep (runStates s0 fs i) (fs i)).lastBeatTime
      rw [analyzeStep_lastBeat_of_beat hbeat]

end AnalyzerV2

/-- C7 amended: in the second (advanced) analyzer variant, a frame
reports beatDetected only when all four conditions hold at that frame
(bass above the rolling mean plus 1.5 standard deviations, bass above
1.2 times the previous frame bass, spectral flux above the 0.1 floor,
and more than the 120 ms cooldown since the last beat), and in every
run with non-decreasing clock, any two beat frames are more than 120 ms
apart, so no second beat is reported inside the cooldown window even if
the spike sustains.  The first variant uses a simpler rule and does not
satisfy this property. -/
theorem beat_detection_amended :
    (∀ (s : AnalyzerV2.V2State) (f : AnalyzerV2.Frame),
      AnalyzerV2.beatDetected s f →
        AnalyzerV2.stepBass s f >
          (AnalyzerV2.stepHistory s f).sum / ((AnalyzerV2.stepHistory s f).length : ℝ)
          + Real.sqrt (((AnalyzerV2.stepHistory s f).map (fun e =>
              (e - (AnalyzerV2.stepHistory s f).sum
                / ((AnalyzerV2.stepHistory s f).length : ℝ)) ^ 2)).sum
              / ((AnalyzerV2.stepHistory s f).length : ℝ)) * 1.5 ∧
        AnalyzerV2.stepBass s f > s.bass * 1.2 ∧
        AnalyzerV2.stepFlux s f > 0.1 ∧
        f.now - s.lastBeatTime > 120) ∧
    (∀ (s0 : AnalyzerV2.V2State) (fs : ℕ → AnalyzerV2.Frame),
      (∀ m n : ℕ, m ≤ n → (fs m).now ≤ (fs n).now) →
      ∀ i j : ℕ, i < j → AnalyzerV2.beatAt s0 fs i → AnalyzerV2.beatAt s0 fs j →
        (fs j).now - (fs i).now > 120) := by
  constructor
  · intro s f h
    exact h
  · intro s0 fs hmono i j hij hbi hbj
    have hge : (fs i).now ≤ (AnalyzerV2.runStates s0 fs j).lastBeatTime :=
      AnalyzerV2.lastBeat_ge hmono hbi j hij
    have hcool : (fs j).now - (AnalyzerV2.runStates s0 fs j).lastBeatTime > 120 :=
      hbj.2.2.2
    linarith

theorem getBandEnergy_replicate {n v s e : ℕ} (h : s < min e n) :
    AnalyzerV2.getBandEnergy (List.replicate n v) s e = (v : ℝ) / 255 := by
  unfold AnalyzerV2.getBandEnergy
  rw [List.length_replicate]
  rw [loopSum_const ((v : ℝ) / 255 * ((v : ℝ) / 255)) _ _ _
    (fun i h1 h2 => by rw [getD_replicate_of_lt (by omega)])]
  have h0 : ((min e n - s : ℕ) : ℝ) ≠ 0 := Nat.cast_ne_zero.2 (by omega)
  rw [nsmul_eq_mul, mul_div_cancel_left₀ _ h0]
  exact Real.sqrt_mul_self (by positivity)

theorem wit_bass :
    AnalyzerV2.stepBass AnalyzerV2.witState AnalyzerV2.witFrame = 60/255 := by
  have hb1 : AnalyzerV2.getBandEnergy (List.replicate 8 80) 1 3 = (80 : ℝ) / 255 :=
    getBandEnergy_replicate (by norm_num)
  have hb2 : AnalyzerV2.getBandEnergy (List.replicate 8 80) 3 8 = (80 : ℝ) / 255 :=
    getBandEnergy_replicate (by norm_num)
  simp only [AnalyzerV2.stepBass, AnalyzerV2.asymmetricSmooth, AnalyzerV2.combinedBass,
    AnalyzerV2.witState, AnalyzerV2.witFrame, hb1, hb2]
  norm_num

theorem wit_hist :
    AnalyzerV2.stepHistory AnalyzerV2.witState AnalyzerV2.witFrame
      = [0, 0, 0, 0, 30/255, 30/255, 30/255, 30/255, 60/255] := by
  simp only [AnalyzerV2.stepHistory, wit_bass]
  simp only [AnalyzerV2.witState]
  norm_num

theorem wit_threshold :
    AnalyzerV2.stepThreshold AnalyzerV2.witState AnalyzerV2.witFrame = 50/255 := by
  simp only [AnalyzerV2.stepThreshold, wit_hist]
  have havg : (([0, 0, 0, 0, 30/255, 30/255, 30/255, 30/255, 60/255] : List ℝ)).sum
      / ((([0, 0, 0, 0, 30/255, 30/255, 30/255, 30/255, 60/255] : List ℝ)).length : ℝ)
      = 20/255 := by
    norm_num
  simp only [havg]
  have hvar : (([0, 0, 0, 0, 30/255, 30/255, 30/255, 30/255, 60/255] : List ℝ).map
      (fun e => (e - 20/255) ^ 2)).sum
      / ((([0, 0, 0, 0, 30/255, 30/255, 30/255, 30/255, 60/255] : List ℝ)).length : ℝ)
      = ((20 : ℝ)/255) ^ 2 := by
    norm_num
  rw [hvar, Real.sqrt_sq (by norm_num)]
  norm_num

theorem wit_flux :
    AnalyzerV2.stepFlux AnalyzerV2.witState AnalyzerV2.witFrame = 500/255 := by
  simp only [AnalyzerV2.stepFlux, AnalyzerV2.witState, AnalyzerV2.witFrame]
  rw [List.length_replicate]
  rw [loopSum_const ((50 : ℝ) / 255) _ _ _ ?hterm]
  case hterm =>
    intro i h1 h2
    rw [getD_replicate_of_lt (show i < 8 by omega),
      getD_replicate_of_lt (show i < 8 by omega)]
    norm_num
  rw [nsmul_eq_mul]
  norm_num

theorem wit_beat :
    AnalyzerV2.beatDetected AnalyzerV2.witState AnalyzerV2.witFrame := by
  unfold AnalyzerV2.beatDetected
  refine ⟨?_, ?_, ?_, ?_⟩
  · rw [wit_bass, wit_threshold]
    norm_num
  · rw [wit_bass]
    show (60 : ℝ)/255 > AnalyzerV2.witState.bass * 1.2
    simp only [AnalyzerV2.witState]
    norm_num
  · rw [wit_flux]
    norm_num
  · show AnalyzerV2.witFrame.now - AnalyzerV2.witState.lastBeatTime > 120
    simp only [AnalyzerV2.witState, AnalyzerV2.witFrame]
    norm_num

/-- Witness for C7 amended: the four beat conditions instantiated at the
concrete analyzer state and frame, where a beat fires 200 ms after the
previous one. -/
theorem beat_detection_amended_witness :
    AnalyzerV2.stepBass AnalyzerV2.witState AnalyzerV2.witFrame >
      (AnalyzerV2.stepHistory AnalyzerV2.witState AnalyzerV2.witFrame).sum
        / ((AnalyzerV2.stepHistory AnalyzerV2.witState AnalyzerV2.witFrame).length : ℝ)
      + Real.sqrt (((AnalyzerV2.stepHistory AnalyzerV2.witState AnalyzerV2.witFrame).map
          (fun e => (e - (AnalyzerV2.stepHistory AnalyzerV2.witState AnalyzerV2.witFrame).sum
            / ((AnalyzerV2.stepHistory AnalyzerV2.witState AnalyzerV2.witFrame).length : ℝ)) ^ 2)).sum
          / ((AnalyzerV2.stepHistory AnalyzerV2.witState AnalyzerV2.witFrame).length : ℝ)) * 1.5 ∧
    AnalyzerV2.stepBass AnalyzerV2.witState AnalyzerV2.witFrame
      > AnalyzerV2.witState.bass * 1.2 ∧
    AnalyzerV2.stepFlux AnalyzerV2.witState AnalyzerV2.witFrame > 0.1 ∧
    AnalyzerV2.witFrame.now - AnalyzerV2.witState.lastBeatTime > 120 :=
  beat_detection_amended.1 AnalyzerV2.witState AnalyzerV2.witFrame wit_beat
